import Mathlib

/-!
Verification of the streaming transfer engine of `smart_open_lib.py`
(single-file repository).  The Python source is shallowly embedded:

* bytes are modelled as `List Nat` (byte values; `10` is `b'\n'`),
* the S3 line streamer `s3_iter_lines` as a pure function over the list
  of chunks delivered by the external client,
* the multipart writer `S3OpenWrite` as explicit state passing with a
  trace of backend calls (`upload_part_from_file`, `complete_upload`,
  `cancel_multipart_upload`),
* the bucket enumerator `s3_iter_bucket` as a trace over a listing and
  a completion order (the worker pool's nondeterminism),
* `ParseUri.__init__` over the scheme/netloc/path triple produced by
  `urlsplit`, with a model of `urlsplit` for concrete URI strings.
-/

/-! ## Line-Streaming Reader (`s3_iter_lines`) -/

/-- The newline byte `b'\n'` searched for by `buf.find(b'\n', start)`. -/
def NL : Nat := 10

/-- One pass of the inner `while True` loop of `s3_iter_lines`: splits the
current buffer into the complete lines it holds (each slice runs through and
includes its newline, exactly the slices `buf[start:end]` yielded by the
source) together with the unconsumed remainder `buf[start:]` kept for the
next chunk. -/
def scanLines : List Nat → List (List Nat) × List Nat
  | [] => ([], [])
  | c :: cs =>
    let r := scanLines cs
    if c = NL then ([NL] :: r.1, r.2)
    else
      match r.1 with
      | [] => ([], c :: r.2)
      | l :: ls => ((c :: l) :: ls, r.2)

/-- The chunk loop of `s3_iter_lines`: append each incoming chunk to the
buffer, yield all complete lines, and after the source is exhausted yield
the final unterminated fragment if nonempty (`if buf: yield buf`). -/
def s3_iter_lines_go : List (List Nat) → List Nat → List (List Nat)
  | [], buf => if buf = [] then [] else [buf]
  | c :: cs, buf =>
    let r := scanLines (buf ++ c)
    r.1 ++ s3_iter_lines_go cs r.2

/-- `s3_iter_lines`, as a function from the chunk sequence produced by the
external S3 key object to the yielded lines.  The buffer starts empty
(`buf = b''`). -/
def s3_iter_lines (chunks : List (List Nat)) : List (List Nat) :=
  s3_iter_lines_go chunks []

lemma scanLines_flatten (buf : List Nat) :
    (scanLines buf).1.flatten ++ (scanLines buf).2 = buf := by
  induction buf with
  | nil => simp [scanLines]
  | cons c cs ih =>
    simp only [scanLines]
    by_cases h : c = NL
    · subst h
      rw [if_pos rfl]
      simpa using ih
    · simp only [h, if_false]
      cases hr : (scanLines cs).1 with
      | nil =>
        rw [hr] at ih
        simp only [List.flatten_nil, List.nil_append] at ih
        simp [ih]
      | cons l ls =>
        rw [hr] at ih
        simp only [List.flatten_cons, List.cons_append, List.append_assoc,
          List.cons.injEq, true_and]
        simpa using ih

lemma scanLines_last (buf : List Nat) :
    ∀ l ∈ (scanLines buf).1, l.getLast? = some NL := by
  induction buf with
  | nil => simp [scanLines]
  | cons c cs ih =>
    simp only [scanLines]
    by_cases h : c = NL
    · rw [if_pos h]
      intro l hl
      rcases List.mem_cons.mp hl with h1 | h2
      · simp [h1]
      · exact ih l h2
    · simp only [h, if_false]
      cases hr : (scanLines cs).1 with
      | nil => simp
      | cons l0 ls =>
        intro l hl
        rcases List.mem_cons.mp hl with h1 | h2
        · have hl0 : l0.getLast? = some NL := by
            apply ih
            rw [hr]
            exact List.mem_cons_self _ _
          subst h1
          cases l0 with
          | nil => simp at hl0
          | cons x xs => rw [List.getLast?_cons_cons]; exact hl0
        · apply ih
          rw [hr]
          exact List.mem_cons_of_mem _ h2

lemma s3_iter_lines_go_flatten (cs : List (List Nat)) :
    ∀ buf, (s3_iter_lines_go cs buf).flatten = buf ++ cs.flatten := by
  induction cs with
  | nil =>
    intro buf
    by_cases h : buf = [] <;> simp [s3_iter_lines_go, h]
  | cons c cs ih =>
    intro buf
    simp only [s3_iter_lines_go, List.flatten_append, ih, List.flatten_cons]
    rw [← List.append_assoc, scanLines_flatten, List.append_assoc]

lemma mem_dropLast_append {α : Type} {x : α} {A B : List α}
    (h : x ∈ (A ++ B).dropLast) : x ∈ A ∨ x ∈ B.dropLast := by
  cases B with
  | nil =>
    left
    have := List.dropLast_subset (A ++ []) h
    simpa using this
  | cons b bs =>
    rw [List.dropLast_append_cons] at h
    rcases List.mem_append.mp h with h1 | h2
    · exact Or.inl h1
    · exact Or.inr h2

lemma s3_iter_lines_go_last (cs : List (List Nat)) :
    ∀ buf, ∀ l ∈ (s3_iter_lines_go cs buf).dropLast, l.getLast? = some NL := by
  induction cs with
  | nil =>
    intro buf l hl
    by_cases h : buf = [] <;> simp [s3_iter_lines_go, h] at hl
  | cons c cs ih =>
    intro buf l hl
    simp only [s3_iter_lines_go] at hl
    rcases mem_dropLast_append hl with h1 | h2
    · exact scanLines_last _ l h1
    · exact ih _ l h2

lemma s3_iter_lines_go_nil (cs : List (List Nat)) :
    ∀ buf, buf = [] → cs.flatten = [] → s3_iter_lines_go cs buf = [] := by
  induction cs with
  | nil => intro buf h _; simp [s3_iter_lines_go, h]
  | cons c cs ih =>
    intro buf hb hj
    rw [List.flatten_cons] at hj
    obtain ⟨hc, hcs⟩ := List.append_eq_nil.mp hj
    subst hb
    subst hc
    simp only [s3_iter_lines_go, List.nil_append]
    rw [show scanLines [] = ([], []) from rfl]
    simpa using ih [] rfl hcs

/-- C2: for every sequence of byte chunks, the lines yielded by
`s3_iter_lines` concatenate back to the concatenation of the chunks, every
yielded element except possibly the last ends in a newline byte, and an
empty object yields zero lines. -/
theorem s3_iter_lines_spec (chunks : List (List Nat)) :
    (s3_iter_lines chunks).flatten = chunks.flatten ∧
    (∀ l ∈ (s3_iter_lines chunks).dropLast, l.getLast? = some NL) ∧
    (chunks.flatten = [] → s3_iter_lines chunks = []) := by
  refine ⟨?_, ?_, ?_⟩
  · simpa using s3_iter_lines_go_flatten chunks []
  · exact s3_iter_lines_go_last chunks []
  · intro h
    exact s3_iter_lines_go_nil chunks [] rfl h

/-- Witness for C2 at a concrete chunk split: `b"a\nb"` delivered as the
chunks `b"a\n"`, `b"b"`, and the empty object. -/
theorem s3_iter_lines_spec_witness :
    (s3_iter_lines [[97, NL], [98]]).flatten = ([[97, NL], [98]] : List (List Nat)).flatten ∧
    s3_iter_lines ([[], []] : List (List Nat)) = [] :=
  ⟨(s3_iter_lines_spec [[97, NL], [98]]).1,
   (s3_iter_lines_spec [[], []]).2.2 rfl⟩

/-! ## Chunked Upload Writer (`S3OpenWrite`) -/

/-- A backend round trip made by the writer: `mp.upload_part_from_file`
(with its 1-based `part_num` and the uploaded bytes),
`mp.complete_upload`, or `outbucket.cancel_multipart_upload`. -/
inductive BackendOp
  | uploadPart (partNum : Nat) (data : List Nat)
  | complete
  | cancel
deriving DecidableEq

/-- The mutable fields of an `S3OpenWrite` instance (`min_part_size`,
`lines`, `total_size`, `chunk_bytes`, `parts`). -/
structure WState where
  minPartSize : Nat
  lines : List (List Nat)
  totalSize : Nat
  chunkBytes : Nat
  parts : Nat
deriving DecidableEq

/-- The state right after `__init__`: empty buffer, zero counters. -/
def initW (minPartSize : Nat) : WState :=
  ⟨minPartSize, [], 0, 0, 0⟩

/-- `S3OpenWrite.write` on a binary payload: append to `self.lines`, bump
the byte counters, and once `chunk_bytes >= min_part_size` upload the
joined buffer as part number `parts + 1`, then clear the buffer and
increment `parts`.  Returns the new state and the backend calls made. -/
def S3OpenWrite.write (s : WState) (b : List Nat) : WState × List BackendOp :=
  let lines := s.lines ++ [b]
  let chunkBytes := s.chunkBytes + b.length
  let totalSize := s.totalSize + b.length
  if s.minPartSize ≤ chunkBytes then
    ({ s with lines := [], chunkBytes := 0, totalSize := totalSize, parts := s.parts + 1 },
      [BackendOp.uploadPart (s.parts + 1) lines.flatten])
  else
    ({ s with lines := lines, chunkBytes := chunkBytes, totalSize := totalSize }, [])

/-- A whole sequence of `write` calls, accumulating the backend calls in
order. -/
def runWrites : WState → List (List Nat) → WState × List BackendOp
  | s, [] => (s, [])
  | s, b :: bs =>
    let r := S3OpenWrite.write s b
    let r2 := runWrites r.1 bs
    (r2.1, r.2 ++ r2.2)

/-- The backend calls issued by `S3OpenWrite.close` when no backend call
raises: upload the residual buffer as a last part if it is nonempty, then
`complete_upload` if any bytes were written, else
`cancel_multipart_upload`. -/
def S3OpenWrite.closeOps (s : WState) : List BackendOp :=
  (if s.lines.flatten ≠ [] then [BackendOp.uploadPart (s.parts + 1) s.lines.flatten] else [])
    ++ [if s.totalSize ≠ 0 then BackendOp.complete else BackendOp.cancel]

/-- All backend calls of one writer session: the given `write` payloads in
order, then `close` (no transport failures). -/
def sessionOps (minPartSize : Nat) (ws : List (List Nat)) : List BackendOp :=
  let r := runWrites (initW minPartSize) ws
  r.2 ++ S3OpenWrite.closeOps r.1

/-- Extracts the uploaded parts `(part_num, data)` from a backend-call
trace, in emission order. -/
def uploadsOf : List BackendOp → List (Nat × List Nat)
  | [] => []
  | BackendOp.uploadPart n d :: rest => (n, d) :: uploadsOf rest
  | BackendOp.complete :: rest => uploadsOf rest
  | BackendOp.cancel :: rest => uploadsOf rest

/-- Recognizes the two terminal backend calls of a session. -/
def isTerminal : BackendOp → Bool
  | BackendOp.uploadPart _ _ => false
  | BackendOp.complete => true
  | BackendOp.cancel => true

lemma uploadsOf_append (a b : List BackendOp) :
    uploadsOf (a ++ b) = uploadsOf a ++ uploadsOf b := by
  induction a with
  | nil => rfl
  | cons op rest ih => cases op <;> simp [uploadsOf, ih]

lemma write_spec (s : WState) (b : List Nat) :
    ((uploadsOf (S3OpenWrite.write s b).2).map Prod.snd).flatten
        ++ (S3OpenWrite.write s b).1.lines.flatten = s.lines.flatten ++ b ∧
    (uploadsOf (S3OpenWrite.write s b).2).map Prod.fst
        = List.range' (s.parts + 1) ((S3OpenWrite.write s b).1.parts - s.parts) ∧
    s.parts ≤ (S3OpenWrite.write s b).1.parts ∧
    (S3OpenWrite.write s b).1.totalSize = s.totalSize + b.length ∧
    (S3OpenWrite.write s b).1.minPartSize = s.minPartSize := by
  unfold S3OpenWrite.write
  by_cases h : s.minPartSize ≤ s.chunkBytes + b.length
  · simp [h, uploadsOf, List.range']
  · simp [h, uploadsOf, List.range']

lemma runWrites_spec (bs : List (List Nat)) : ∀ (s : WState),
    ((uploadsOf (runWrites s bs).2).map Prod.snd).flatten
        ++ (runWrites s bs).1.lines.flatten = s.lines.flatten ++ bs.flatten ∧
    (uploadsOf (runWrites s bs).2).map Prod.fst
        = List.range' (s.parts + 1) ((runWrites s bs).1.parts - s.parts) ∧
    s.parts ≤ (runWrites s bs).1.parts ∧
    (runWrites s bs).1.totalSize = s.totalSize + bs.flatten.length ∧
    (runWrites s bs).1.minPartSize = s.minPartSize := by
  induction bs with
  | nil =>
    intro s
    simp [runWrites, uploadsOf, List.range']
  | cons b bs ih =>
    intro s
    obtain ⟨w1, w2, w3, w4, w5⟩ := write_spec s b
    obtain ⟨i1, i2, i3, i4, i5⟩ := ih (S3OpenWrite.write s b).1
    have hrun : runWrites s (b :: bs)
        = ((runWrites (S3OpenWrite.write s b).1 bs).1,
           (S3OpenWrite.write s b).2 ++ (runWrites (S3OpenWrite.write s b).1 bs).2) := rfl
    rw [hrun]
    simp only [uploadsOf_append, List.map_append, List.flatten_append]
    refine ⟨?_, ?_, ?_, ?_, ?_⟩
    · rw [List.append_assoc, i1, ← List.append_assoc, w1, List.append_assoc, List.flatten_cons]
    · rw [w2, i2]
      have := List.range'_append_1 (s.parts + 1)
        ((S3OpenWrite.write s b).1.parts - s.parts)
        ((runWrites (S3OpenWrite.write s b).1 bs).1.parts - (S3OpenWrite.write s b).1.parts)
      rw [show s.parts + 1 + ((S3OpenWrite.write s b).1.parts - s.parts)
            = (S3OpenWrite.write s b).1.parts + 1 by omega] at this
      rw [this]
      congr 1
      omega
    · omega
    · rw [i4, w4]
      simp [Nat.add_assoc]
    · rw [i5, w5]

/-- C1: over any sequence of `write` calls followed by `close`, the parts
uploaded to the backend, concatenated, reproduce the concatenation of all
written payloads, and their part numbers are exactly `1, 2, …, n` in
emission order. -/
theorem s3OpenWrite_parts_spec (minPartSize : Nat) (ws : List (List Nat)) :
    ((uploadsOf (sessionOps minPartSize ws)).map Prod.snd).flatten = ws.flatten ∧
    (uploadsOf (sessionOps minPartSize ws)).map Prod.fst
      = List.range' 1 (uploadsOf (sessionOps minPartSize ws)).length := by
  obtain ⟨h1, h2, h3, h4, h5⟩ := runWrites_spec ws (initW minPartSize)
  have hops : sessionOps minPartSize ws
      = (runWrites (initW minPartSize) ws).2
        ++ S3OpenWrite.closeOps (runWrites (initW minPartSize) ws).1 := rfl
  rw [hops]
  clear hops
  simp only [show (initW minPartSize).lines = [] from rfl,
    show (initW minPartSize).parts = 0 from rfl,
    List.flatten_nil, List.nil_append, Nat.zero_add, Nat.sub_zero] at h1 h2
  generalize hg : runWrites (initW minPartSize) ws = r at h1 h2
  by_cases hbuf : r.1.lines.flatten = []
  · have hclose : uploadsOf (S3OpenWrite.closeOps r.1) = [] := by
      unfold S3OpenWrite.closeOps
      rw [hbuf]
      by_cases ht : r.1.totalSize ≠ 0 <;> simp [ht, uploadsOf]
    rw [uploadsOf_append, hclose, List.append_nil]
    constructor
    · rw [← h1, hbuf, List.append_nil]
    · rw [h2]
      congr 1
      have hl : (uploadsOf r.2).length = r.1.parts := by
        simpa using congrArg List.length h2
      exact hl.symm
  · have hclose : uploadsOf (S3OpenWrite.closeOps r.1)
        = [(r.1.parts + 1, r.1.lines.flatten)] := by
      unfold S3OpenWrite.closeOps
      rw [if_pos hbuf]
      by_cases ht : r.1.totalSize ≠ 0 <;> simp [ht, uploadsOf]
    rw [uploadsOf_append, hclose]
    constructor
    · simp only [List.map_append, List.flatten_append, List.map_cons, List.map_nil,
        List.flatten_cons, List.flatten_nil, List.append_nil]
      exact h1
    · simp only [List.map_append, List.map_cons, List.map_nil, List.length_append,
        List.length_cons, List.length_nil]
      rw [h2]
      have hlen : (uploadsOf r.2).length = r.1.parts := by
        have := congrArg List.length h2
        simpa using this
      rw [hlen]
      have hc := List.range'_1_concat 1 r.1.parts
      rw [show (1 : Nat) + r.1.parts = r.1.parts + 1 by omega] at hc
      rw [show r.1.parts + (0 + 1) = r.1.parts + 1 by omega, hc]

lemma closeOps_terminal_count (s : WState) :
    (S3OpenWrite.closeOps s).countP isTerminal = 1 := by
  unfold S3OpenWrite.closeOps
  by_cases hb : s.lines.flatten ≠ [] <;> by_cases ht : s.totalSize ≠ 0 <;>
    simp [hb, ht, List.countP_append, List.countP_cons, isTerminal]

/-- C3: `close` always issues exactly one terminal backend call
(`complete_upload` or `cancel_multipart_upload`), and when the total
number of bytes written over the whole session is zero it cancels the
multipart upload — uploading no part and creating no object. -/
theorem s3OpenWrite_close_empty_aborts (minPartSize : Nat) (ws : List (List Nat)) :
    (S3OpenWrite.closeOps (runWrites (initW minPartSize) ws).1).countP isTerminal = 1 ∧
    (ws.flatten = [] →
      S3OpenWrite.closeOps (runWrites (initW minPartSize) ws).1 = [BackendOp.cancel]) := by
  refine ⟨closeOps_terminal_count _, ?_⟩
  intro hws
  obtain ⟨h1, h2, h3, h4, h5⟩ := runWrites_spec ws (initW minPartSize)
  simp only [show (initW minPartSize).lines = [] from rfl,
    show (initW minPartSize).totalSize = 0 from rfl,
    List.flatten_nil, List.nil_append, Nat.zero_add] at h1 h4
  rw [hws] at h1 h4
  have hbuf : (runWrites (initW minPartSize) ws).1.lines.flatten = [] :=
    (List.append_eq_nil.mp h1).2
  have htot : (runWrites (initW minPartSize) ws).1.totalSize = 0 := by
    simpa using h4
  unfold S3OpenWrite.closeOps
  rw [hbuf, htot]
  simp

/-- Witness for C3: the empty session (no `write` call at all) with the
default threshold issues exactly `cancel_multipart_upload`. -/
theorem s3OpenWrite_close_empty_aborts_witness :
    (S3OpenWrite.closeOps (runWrites (initW (50 * 1024 ^ 2)) []).1).countP isTerminal = 1 ∧
    S3OpenWrite.closeOps (runWrites (initW (50 * 1024 ^ 2)) []).1 = [BackendOp.cancel] :=
  ⟨(s3OpenWrite_close_empty_aborts (50 * 1024 ^ 2) []).1,
   (s3OpenWrite_close_empty_aborts (50 * 1024 ^ 2) []).2 rfl⟩

/-- C5 fails on the code: with threshold `T = 1` a single `write` of the
3-byte payload `[0, 0, 0]` (size `3 * T`) uploads the whole accumulated
buffer as ONE part during the write — not at least 2 parts as claimed. -/
theorem c5_counterexample :
    ¬ (2 ≤ (uploadsOf (runWrites (initW 1) [[0, 0, 0]]).2).length) := by
  decide

/-- C5 amended: for every threshold `T > 0`, a single `write` of size
`3 * T` crosses the threshold once and uploads the whole buffer as exactly
one part (part number 1, containing the entire payload); `close` then
uploads nothing further and finalizes. -/
theorem s3OpenWrite_triple_write_single_part (T : Nat) (w : List Nat)
    (hT : 0 < T) (hw : w.length = 3 * T) :
    uploadsOf (runWrites (initW T) [w]).2 = [(1, w)] ∧
    uploadsOf (S3OpenWrite.closeOps (runWrites (initW T) [w]).1) = [] ∧
    S3OpenWrite.closeOps (runWrites (initW T) [w]).1 = [BackendOp.complete] := by
  have hcond : T ≤ 0 + w.length := by omega
  have hwne : w ≠ [] := by
    intro h
    rw [h] at hw
    simp at hw
    omega
  have hwrite : S3OpenWrite.write (initW T) w
      = ({ minPartSize := T, lines := [], totalSize := 0 + w.length,
           chunkBytes := 0, parts := 0 + 1 },
         [BackendOp.uploadPart (0 + 1) ([] ++ [w] : List (List Nat)).flatten]) := by
    simp only [S3OpenWrite.write, initW]
    rw [if_pos hcond]
  have hrun : runWrites (initW T) [w]
      = ((S3OpenWrite.write (initW T) w).1, (S3OpenWrite.write (initW T) w).2 ++ []) := rfl
  rw [hrun, hwrite]
  refine ⟨by simp [uploadsOf], ?_, ?_⟩
  · unfold S3OpenWrite.closeOps
    simp [hwne, uploadsOf]
  · unfold S3OpenWrite.closeOps
    simp [hwne]

/-- Witness for amended C5 at `T = 1`, payload `[0, 0, 0]`. -/
theorem s3OpenWrite_triple_write_single_part_witness :
    uploadsOf (runWrites (initW 1) [[0, 0, 0]]).2 = [(1, [0, 0, 0])] ∧
    uploadsOf (S3OpenWrite.closeOps (runWrites (initW 1) [[0, 0, 0]]).1) = [] ∧
    S3OpenWrite.closeOps (runWrites (initW 1) [[0, 0, 0]]).1 = [BackendOp.complete] :=
  s3OpenWrite_triple_write_single_part 1 [0, 0, 0] (by decide) (by decide)

/-- The exception propagating out of the write scope: the original
exception that was active when `__exit__` was entered, or a failure raised
by one of the backend calls made during teardown. -/
inductive Exn
  | original
  | backendFail (op : BackendOp)
deriving DecidableEq

/-- Recognizes `cancel_multipart_upload` calls (abort attempts). -/
def isCancel : BackendOp → Bool
  | BackendOp.cancel => true
  | _ => false

/-- Attempts a sequence of backend calls under a failure oracle: the
`k`-th backend round trip of the teardown raises iff `oracle k`.  Returns
the calls attempted (a failed call is still an attempt), the exception if
one was raised (aborting the remaining calls, as a Python exception
does), and the next round-trip index. -/
def runOps (oracle : Nat → Bool) : Nat → List BackendOp → List BackendOp × Option Exn × Nat
  | k, [] => ([], none, k)
  | k, op :: ops =>
    if oracle k then ([op], some (Exn.backendFail op), k + 1)
    else
      let r := runOps oracle (k + 1) ops
      (op :: r.1, r.2.1, r.2.2)

/-- `S3OpenWrite.close` under the failure oracle: its backend calls are
`closeOps`, attempted in order until one raises. -/
def S3OpenWrite.closeRun (s : WState) (oracle : Nat → Bool) :
    List BackendOp × Option Exn × Nat :=
  runOps oracle 0 (S3OpenWrite.closeOps s)

/-- `S3OpenWrite.__exit__`: if an exception is active (`type is not
None`), `_termination_error` cancels the upload and `return False`
re-raises the original — unless the cancel itself raises, in which case
the cancel's failure propagates out of `__exit__` instead.  Otherwise
`close()` runs; if it raises, `_termination_error` cancels and `raise`
re-raises the close failure — again unless that cancel itself raises. -/
def S3OpenWrite.exitRun (s : WState) (excActive : Bool) (oracle : Nat → Bool) :
    List BackendOp × Option Exn :=
  if excActive then
    if oracle 0 then ([BackendOp.cancel], some (Exn.backendFail BackendOp.cancel))
    else ([BackendOp.cancel], some Exn.original)
  else
    let r := S3OpenWrite.closeRun s oracle
    match r.2.1 with
    | none => (r.1, none)
    | some e =>
      if oracle r.2.2 then (r.1 ++ [BackendOp.cancel], some (Exn.backendFail BackendOp.cancel))
      else (r.1 ++ [BackendOp.cancel], some e)

/-- C4 fails on the code: in a session with zero bytes written and no
active exception, `close` itself issues the abort; if that abort raises,
`__exit__`'s teardown handler issues a second abort — two abort attempts
in one session, where the claim allows at most one. -/
theorem c4_counterexample :
    ¬ ((S3OpenWrite.exitRun (initW (50 * 1024 ^ 2)) false (fun _ => true)).1.countP
        isCancel ≤ 1) := by
  decide

/-- C4 amended: whenever an exception is active on exit or `close` raises,
the upload is cancelled with the backend; at most two abort attempts occur
per session, with a second attempt only when the abort made inside `close`
(empty session) itself failed; the original triggering exception is
re-raised exactly when the teardown abort does not itself raise — a
failing teardown abort propagates in place of the original exception. -/
theorem s3OpenWrite_exit_spec (s : WState) (exc : Bool) (oracle : Nat → Bool) :
    ((exc = true ∨ (S3OpenWrite.closeRun s oracle).2.1.isSome = true) →
        BackendOp.cancel ∈ (S3OpenWrite.exitRun s exc oracle).1) ∧
    (S3OpenWrite.exitRun s exc oracle).1.countP isCancel ≤ 2 ∧
    ((S3OpenWrite.exitRun s exc oracle).1.countP isCancel = 2 →
        (S3OpenWrite.closeRun s oracle).2.1 = some (Exn.backendFail BackendOp.cancel)) ∧
    (exc = true → oracle 0 = false →
        (S3OpenWrite.exitRun s exc oracle).2 = some Exn.original) ∧
    (exc = true → oracle 0 = true →
        (S3OpenWrite.exitRun s exc oracle).2 = some (Exn.backendFail BackendOp.cancel)) ∧
    (exc = false → (S3OpenWrite.closeRun s oracle).2.1.isSome = true →
        oracle (S3OpenWrite.closeRun s oracle).2.2 = false →
        (S3OpenWrite.exitRun s exc oracle).2 = (S3OpenWrite.closeRun s oracle).2.1) ∧
    (exc = false → (S3OpenWrite.closeRun s oracle).2.1.isSome = true →
        oracle (S3OpenWrite.closeRun s oracle).2.2 = true →
        (S3OpenWrite.exitRun s exc oracle).2 = some (Exn.backendFail BackendOp.cancel)) := by
  cases exc with
  | true =>
    by_cases h0 : oracle 0 <;>
      simp [S3OpenWrite.exitRun, h0, List.countP_cons, isCancel]
  | false =>
    have hcr : S3OpenWrite.closeRun s oracle
        = runOps oracle 0
            ((if s.lines.flatten ≠ []
                then [BackendOp.uploadPart (s.parts + 1) s.lines.flatten] else [])
              ++ [if s.totalSize ≠ 0 then BackendOp.complete else BackendOp.cancel]) := rfl
    split_ifs at hcr with hb ht ht <;>
      simp only [S3OpenWrite.exitRun, hcr] <;>
      by_cases h0 : oracle 0 <;> by_cases h1 : oracle 1 <;> by_cases h2 : oracle 2 <;>
      simp_all [runOps, List.countP_cons, List.countP_append, isCancel]

/-- Witness for amended C4: an active exception with a clean backend — one
abort attempt, original exception re-raised. -/
theorem s3OpenWrite_exit_spec_witness :
    BackendOp.cancel ∈ (S3OpenWrite.exitRun (initW 5) true (fun _ => false)).1 ∧
    (S3OpenWrite.exitRun (initW 5) true (fun _ => false)).2 = some Exn.original :=
  ⟨(s3OpenWrite_exit_spec (initW 5) true (fun _ => false)).1 (Or.inl rfl),
   (s3OpenWrite_exit_spec (initW 5) true (fun _ => false)).2.2.2.1 rfl rfl⟩

/-! ## Parallel Bulk Enumerator (`s3_iter_bucket`) -/

/-- A listed S3 key: its name and the content a fetch would return. -/
structure S3Key where
  name : List Char
  content : List Nat
deriving DecidableEq

/-- The filtered listing generator
`keys = (key for key in bucket.list(prefix) if accept_key(key.name))`:
only these keys are ever submitted to the worker pool, so only these can
be fetched.  Rejected keys never reach `s3_iter_bucket_process_key`. -/
def fetchCandidates (listing : List S3Key) (accept : List Char → Bool) : List S3Key :=
  listing.filter (fun k => accept k.name)

/-- An observable event of the `s3_iter_bucket` generator: a yielded
`(key name, content)` pair, or the `pool.terminate()` call. -/
inductive IterEv
  | yielded (name : List Char) (content : List Nat)
  | terminate
deriving DecidableEq

/-- The `key_limit` test `key_limit is not None and key_no + 1 >= key_limit`. -/
def limitReached : Option Nat → Nat → Bool
  | none, _ => false
  | some k, n => k ≤ n

/-- The `for key_no, (key, content) in enumerate(pool.imap_unordered(…))`
loop body over a given completion order: each key is yielded, then the
loop breaks once `key_no + 1 >= key_limit`.  `n` is the `enumerate`
counter of the next key. -/
def runEnumAux : List S3Key → Nat → Option Nat → List S3Key
  | [], _, _ => []
  | key :: rest, n, lim =>
    key :: (if limitReached lim (n + 1) then [] else runEnumAux rest (n + 1) lim)

/-- The keys the generator yields, in completion order `order` (the
permutation of the accepted keys in which the pool's `imap_unordered`
delivers results). -/
def runEnum (order : List S3Key) (lim : Option Nat) : List S3Key :=
  runEnumAux order 0 lim

/-- The event trace of `s3_iter_bucket` under a consumer that calls
`next()` `calls` times.  The `pool.terminate()` after the loop is not
protected by any `try/finally`, so it runs only when the consumer drives
the generator past its last yield (at least one more `next()` than there
are yields); a consumer that abandons iteration earlier closes the
generator at a suspended `yield`, the `GeneratorExit` unwinds, and
`terminate` is skipped. -/
def s3_iter_bucket_trace (order : List S3Key) (lim : Option Nat) (calls : Nat) :
    List IterEv :=
  let ys := runEnum order lim
  if ys.length < calls then
    ys.map (fun k => IterEv.yielded k.name k.content) ++ [IterEv.terminate]
  else
    (ys.take calls).map (fun k => IterEv.yielded k.name k.content)

/-- C6 fails on the code: with two accepted keys and no limit, a consumer
that abandons iteration after a single `next()` call leaves the generator
suspended, and `pool.terminate()` is never executed — the worker pool is
not torn down on this exit path. -/
theorem c6_abandon_no_terminate :
    IterEv.terminate ∉
      s3_iter_bucket_trace
        [⟨['a'], [1]⟩, ⟨['b'], [2]⟩] none 1 := by
  decide

lemma runEnumAux_mem {key : S3Key} : ∀ (l : List S3Key) (n : Nat) (lim : Option Nat),
    key ∈ runEnumAux l n lim → key ∈ l := by
  intro l
  induction l with
  | nil => intro n lim h; simp [runEnumAux] at h
  | cons k rest ih =>
    intro n lim h
    simp only [runEnumAux, List.mem_cons] at h
    rcases h with h | h
    · exact List.mem_cons.mpr (Or.inl h)
    · by_cases hl : limitReached lim (n + 1) = true
      · rw [if_pos hl] at h
        simp at h
      · rw [if_neg hl] at h
        exact List.mem_cons.mpr (Or.inr (ih (n + 1) lim h))

lemma runEnumAux_length (k : Nat) : ∀ (l : List S3Key) (n : Nat), n < k →
    (runEnumAux l n (some k)).length = min (k - n) l.length := by
  intro l
  induction l with
  | nil => intro n _; simp [runEnumAux]
  | cons key rest ih =>
    intro n hn
    simp only [runEnumAux, List.length_cons]
    by_cases hl : limitReached (some k) (n + 1) = true
    · have hk : k = n + 1 := by
        simp only [limitReached, decide_eq_true_eq] at hl
        omega
      rw [if_pos hl]
      simp only [List.length_nil]
      omega
    · have hk : n + 1 < k := by
        simp only [limitReached, decide_eq_true_eq] at hl
        omega
      rw [if_neg hl, ih (n + 1) hk]
      omega

/-- C7 amended: for every limit `k ≥ 1` and every completion order of the
accepted keys, the enumerator yields exactly `min k (number of accepted
keys)` results and stops; every yielded key passed the predicate, and a
rejected key is never among the keys submitted for fetching.  (With
`k = 0` the code still yields the first accepted key, because the yield
precedes the limit check — see the counterexample.) -/
theorem s3_iter_bucket_limit_spec (listing : List S3Key) (accept : List Char → Bool)
    (k : Nat) (order : List S3Key)
    (hperm : order.Perm (fetchCandidates listing accept)) (hk : 1 ≤ k) :
    (runEnum order (some k)).length = min k (fetchCandidates listing accept).length ∧
    (∀ key ∈ runEnum order (some k), accept key.name = true) ∧
    (∀ key, accept key.name = false → key ∉ fetchCandidates listing accept) := by
  refine ⟨?_, ?_, ?_⟩
  · rw [runEnum, runEnumAux_length k order 0 (by omega), hperm.length_eq]
    simp
  · intro key hkey
    have hmem : key ∈ order := runEnumAux_mem order 0 (some k) hkey
    have : key ∈ fetchCandidates listing accept := hperm.mem_iff.mp hmem
    exact (List.mem_filter.mp this).2
  · intro key hrej hmem
    have := (List.mem_filter.mp hmem).2
    rw [hrej] at this
    exact Bool.false_ne_true this

/-- C7 fails as stated at `k = 0`: a listing with one accepted key and
`key_limit = 0` still yields that key (the yield precedes the
`key_no + 1 >= key_limit` check), so the yield count is 1, not
`min 0 1 = 0`. -/
theorem c7_counterexample :
    ¬ ((runEnum [⟨['a'], [1]⟩] (some 0)).length
        = min 0 (fetchCandidates [⟨['a'], [1]⟩] (fun _ => true)).length) := by
  decide

/-- Witness for amended C7: two keys, completion order reversed, limit 1. -/
theorem s3_iter_bucket_limit_spec_witness :
    (runEnum [⟨['b'], [2]⟩, ⟨['a'], [1]⟩] (some 1)).length
      = min 1 (fetchCandidates [⟨['a'], [1]⟩, ⟨['b'], [2]⟩] (fun _ => true)).length ∧
    (∀ key ∈ runEnum [⟨['b'], [2]⟩, ⟨['a'], [1]⟩] (some 1),
        (fun (_ : List Char) => true) key.name = true) ∧
    (∀ key : S3Key, (fun (_ : List Char) => true) key.name = false →
        key ∉ fetchCandidates [⟨['a'], [1]⟩, ⟨['b'], [2]⟩] (fun _ => true)) :=
  s3_iter_bucket_limit_spec [⟨['a'], [1]⟩, ⟨['b'], [2]⟩] (fun _ => true) 1
    [⟨['b'], [2]⟩, ⟨['a'], [1]⟩] (by decide) (by decide)

/-! ## URI Resolver (`ParseUri`) -/

/-- Python `s.split(sep)` on a character list: always returns at least one
piece; `n` separators give `n + 1` pieces. -/
def splitOn (sep : Char) : List Char → List (List Char)
  | [] => [[]]
  | c :: cs =>
    if c = sep then [] :: splitOn sep cs
    else
      match splitOn sep cs with
      | [] => [[c]]
      | h :: t => (c :: h) :: t

/-- Python `s.split(sep, 1)`: `none` when `sep` does not occur (so that
unpacking into two variables raises `ValueError`), otherwise the pieces
before and after the first occurrence. -/
def splitOnce (sep : Char) : List Char → Option (List Char × List Char)
  | [] => none
  | c :: cs =>
    if c = sep then some ([], cs)
    else
      match splitOnce sep cs with
      | none => none
      | some (a, b) => some (c :: a, b)

/-- The triple produced by `urlsplit(uri)` that `ParseUri.__init__`
consumes (query/fragment do not occur in the claims' URIs). -/
structure SplitUri where
  scheme : List Char
  netloc : List Char
  path : List Char
deriving DecidableEq

/-- How `ParseUri.__init__` can fail: `RuntimeError("invalid … URI")`
(the spec's `MalformedURI`), `NotImplementedError("unknown URI scheme")`
(the spec's `UnsupportedScheme`), or the `ValueError` raised by unpacking
a 1-element `split('/', 1)` result into `bucket_id, key_id`. -/
inductive UriError
  | malformed
  | unsupported
  | valueError
deriving DecidableEq

/-- The location descriptor built by a successful `ParseUri.__init__`. -/
inductive Descriptor
  | file (uriPath : List Char)
  | hdfs (uriPath : List Char)
  | s3 (bucket key : List Char) (creds : Option (List Char × List Char))
deriving DecidableEq

/-- `self.scheme = parsed_uri.scheme if parsed_uri.scheme else default_scheme`. -/
def effectiveScheme (u : SplitUri) (d : List Char) : List Char :=
  if u.scheme = [] then d else u.scheme

/-- `ParseUri.__init__` after `urlsplit` (POSIX: the Windows-only
`os.name == 'nt'` coercion branch is not taken).  For hdfs/file the path
is `netloc + path` and must be nonempty; for s3/s3n the combined string is
split on `'@'`: one piece means no credentials and a `split('/', 1)`
bucket/key unpack, two pieces require the credential part to split on
`':'` into exactly two, anything else is an invalid-URI `RuntimeError`.
A missing `'/'` makes the two-variable unpack raise `ValueError`. -/
def parseUriCore (u : SplitUri) (d : List Char) : Except UriError Descriptor :=
  let scheme := effectiveScheme u d
  if scheme = "hdfs".toList then
    if u.netloc ++ u.path = [] then Except.error UriError.malformed
    else Except.ok (Descriptor.hdfs (u.netloc ++ u.path))
  else if scheme = "s3".toList ∨ scheme = "s3n".toList then
    if (splitOn '@' (u.netloc ++ u.path)).length = 1 then
      match splitOnce '/' (splitOn '@' (u.netloc ++ u.path)).headI with
      | none => Except.error UriError.valueError
      | some (b, key) => Except.ok (Descriptor.s3 b key none)
    else if (splitOn '@' (u.netloc ++ u.path)).length = 2 ∧
        (splitOn ':' (splitOn '@' (u.netloc ++ u.path)).headI).length = 2 then
      match splitOnce '/' (splitOn '@' (u.netloc ++ u.path)).getLastI with
      | none => Except.error UriError.valueError
      | some (b, key) =>
        Except.ok (Descriptor.s3 b key
          (some ((splitOn ':' (splitOn '@' (u.netloc ++ u.path)).headI).headI,
                 (splitOn ':' (splitOn '@' (u.netloc ++ u.path)).headI).getLastI)))
    else Except.error UriError.malformed
  else if scheme = "file".toList then
    if u.netloc ++ u.path = [] then Except.error UriError.malformed
    else Except.ok (Descriptor.file (u.netloc ++ u.path))
  else Except.error UriError.unsupported

/-- A character allowed inside a URI scheme after the first letter. -/
def isSchemeChar (c : Char) : Bool :=
  c.isAlphanum || c = '+' || c = '-' || c = '.'

/-- Scans for `scheme:`: the accumulator holds the scheme characters seen
so far (reversed); a `':'` after a nonempty run of scheme characters
yields the scheme and the remainder. -/
def splitScheme (acc : List Char) : List Char → Option (List Char × List Char)
  | [] => none
  | c :: cs =>
    if c = ':' then
      if acc = [] then none else some (acc.reverse, cs)
    else if isSchemeChar c then splitScheme (c :: acc) cs
    else none

/-- Model of the standard library's `urlsplit` restricted to URIs without
query or fragment (all URIs in the claims): an optional `scheme:` prefix
(starting with a letter, lowercased), then `//netloc` up to the next
`'/'`, `'?'` or `'#'`, then the path. -/
def urlsplit (uri : List Char) : SplitUri :=
  let sr :=
    match splitScheme [] uri with
    | some (s, r) =>
      if (s.headD 'a').isAlpha then (s.map Char.toLower, r) else ([], uri)
    | none => ([], uri)
  if sr.2.take 2 = "//".toList then
    let after := sr.2.drop 2
    ⟨sr.1,
     after.takeWhile (fun c => ¬ (c = '/' ∨ c = '?' ∨ c = '#')),
     after.dropWhile (fun c => ¬ (c = '/' ∨ c = '?' ∨ c = '#'))⟩
  else ⟨sr.1, [], sr.2⟩

/-- `ParseUri(uri)` end to end (default scheme `"file"` as in the
constructor signature). -/
def parseUri (uri : List Char) : Except UriError Descriptor :=
  parseUriCore (urlsplit uri) ("file".toList)

lemma splitOn_ne_nil (sep : Char) (s : List Char) : splitOn sep s ≠ [] := by
  cases s with
  | nil => simp [splitOn]
  | cons c cs =>
    simp only [splitOn]
    by_cases h : c = sep
    · simp [h]
    · simp only [h, if_false]
      cases splitOn sep cs <;> simp

/-- C8 amended: `ParseUri` raises the invalid-URI `RuntimeError` (the
spec's `MalformedURI`) exactly when an s3/s3n URI has more than one `'@'`
in its netloc-plus-path, or has exactly one `'@'` with a credential part
(the piece before the `'@'`) that does not split into exactly two
`':'`-separated pieces, or an hdfs/file URI has an empty combined path.
An s3 URI merely lacking the `'/'` bucket/key separator raises
`ValueError` from tuple unpacking instead (see the counterexample), not
the invalid-URI error. -/
theorem parseUri_malformed_iff (u : SplitUri) (d : List Char) :
    parseUriCore u d = Except.error UriError.malformed ↔
      (((effectiveScheme u d = "s3".toList ∨ effectiveScheme u d = "s3n".toList) ∧
          (3 ≤ (splitOn '@' (u.netloc ++ u.path)).length ∨
            ((splitOn '@' (u.netloc ++ u.path)).length = 2 ∧
              (splitOn ':' (splitOn '@' (u.netloc ++ u.path)).headI).length ≠ 2))) ∨
        ((effectiveScheme u d = "hdfs".toList ∨ effectiveScheme u d = "file".toList) ∧
          u.netloc ++ u.path = [])) := by
  simp only [parseUriCore]
  by_cases h1 : effectiveScheme u d = "hdfs".toList
  · rw [if_pos h1]
    have hns : ¬ (effectiveScheme u d = "s3".toList ∨ effectiveScheme u d = "s3n".toList) := by
      rw [h1]
      decide
    by_cases hp : u.netloc ++ u.path = []
    · rw [if_pos hp]
      exact Iff.intro (fun _ => Or.inr ⟨Or.inl h1, hp⟩) (fun _ => rfl)
    · rw [if_neg hp]
      constructor
      · intro h
        simp at h
      · rintro (⟨hs, _⟩ | ⟨_, hp2⟩)
        · exact absurd hs hns
        · exact absurd hp2 hp
  · rw [if_neg h1]
    by_cases h2 : effectiveScheme u d = "s3".toList ∨ effectiveScheme u d = "s3n".toList
    · rw [if_pos h2]
      have hnh : ¬ (effectiveScheme u d = "hdfs".toList ∨
          effectiveScheme u d = "file".toList) := by
        rcases h2 with h2 | h2 <;> rw [h2] <;> decide
      have hpos : 1 ≤ (splitOn '@' (u.netloc ++ u.path)).length :=
        List.length_pos.mpr (splitOn_ne_nil '@' (u.netloc ++ u.path))
      by_cases hlen1 : (splitOn '@' (u.netloc ++ u.path)).length = 1
      · rw [if_pos hlen1]
        cases hso : splitOnce '/' (splitOn '@' (u.netloc ++ u.path)).headI with
        | none =>
          constructor
          · intro h
            simp at h
          · rintro (⟨_, h3 | ⟨hl2, _⟩⟩ | ⟨hs, _⟩)
            · omega
            · omega
            · exact absurd hs hnh
        | some bk =>
          constructor
          · intro h
            simp at h
          · rintro (⟨_, h3 | ⟨hl2, _⟩⟩ | ⟨hs, _⟩)
            · omega
            · omega
            · exact absurd hs hnh
      · rw [if_neg hlen1]
        by_cases hc : (splitOn '@' (u.netloc ++ u.path)).length = 2 ∧
            (splitOn ':' (splitOn '@' (u.netloc ++ u.path)).headI).length = 2
        · rw [if_pos hc]
          cases hso : splitOnce '/' (splitOn '@' (u.netloc ++ u.path)).getLastI with
          | none =>
            constructor
            · intro h
              simp at h
            · rintro (⟨_, h3 | ⟨_, hcc⟩⟩ | ⟨hs, _⟩)
              · omega
              · exact absurd hc.2 hcc
              · exact absurd hs hnh
          | some bk =>
            constructor
            · intro h
              simp at h
            · rintro (⟨_, h3 | ⟨_, hcc⟩⟩ | ⟨hs, _⟩)
              · omega
              · exact absurd hc.2 hcc
              · exact absurd hs hnh
        · rw [if_neg hc]
          constructor
          · intro _
            by_cases hl2 : (splitOn '@' (u.netloc ++ u.path)).length = 2
            · refine Or.inl ⟨h2, Or.inr ⟨hl2, ?_⟩⟩
              intro hcol
              exact hc ⟨hl2, hcol⟩
            · exact Or.inl ⟨h2, Or.inl (by omega)⟩
          · intro _
            rfl
    · rw [if_neg h2]
      by_cases h3 : effectiveScheme u d = "file".toList
      · rw [if_pos h3]
        by_cases hp : u.netloc ++ u.path = []
        · rw [if_pos hp]
          exact Iff.intro (fun _ => Or.inr ⟨Or.inr h3, hp⟩) (fun _ => rfl)
        · rw [if_neg hp]
          constructor
          · intro h
            simp at h
          · rintro (⟨hs, _⟩ | ⟨_, hp2⟩)
            · exact absurd hs h2
            · exact absurd hp2 hp
      · rw [if_neg h3]
        constructor
        · intro h
          simp at h
        · rintro (⟨hs, _⟩ | ⟨hs | hs, _⟩)
          · exact absurd hs h2
          · exact absurd hs h1
          · exact absurd hs h3

instance : DecidableEq (Except UriError Descriptor)
  | Except.ok x, Except.ok y =>
    if h : x = y then isTrue (h ▸ rfl) else isFalse (fun hc => h (Except.ok.inj hc))
  | Except.error x, Except.error y =>
    if h : x = y then isTrue (h ▸ rfl) else isFalse (fun hc => h (Except.error.inj hc))
  | Except.ok _, Except.error _ => isFalse (fun hc => Except.noConfusion hc)
  | Except.error _, Except.ok _ => isFalse (fun hc => Except.noConfusion hc)

/-- C8 fails as stated: the listed malformed input "object-store URI
lacking a '/'-separated bucket/key split" — concretely `"s3://mybucket"` —
raises the tuple-unpacking `ValueError`, not the invalid-URI
`RuntimeError` (`MalformedURI`). -/
theorem c8_counterexample :
    parseUri ("s3://mybucket".toList) = Except.error UriError.valueError ∧
    parseUri ("s3://mybucket".toList) ≠ Except.error UriError.malformed := by
  constructor
  · rfl
  · decide

/-- Witness for amended C8: the spec's own example `"s3://a@b@c/d"` (two
`'@'` separators) is rejected as an invalid URI. -/
theorem parseUri_malformed_iff_witness :
    parseUriCore ⟨"s3".toList, "a@b@c".toList, "/d".toList⟩ ("file".toList)
      = Except.error UriError.malformed :=
  (parseUri_malformed_iff ⟨"s3".toList, "a@b@c".toList, "/d".toList⟩ ("file".toList)).mpr
    (Or.inl ⟨Or.inl (by decide), Or.inl (by decide)⟩)

/-- C9 fails as stated: resolving `"hdfs:///user/x/file"` yields the path
`"/user/x/file"` (the leading slash of `parsed_uri.path` is kept by
`netloc + path`), not `"user/x/file"` as claimed. -/
theorem c9_counterexample :
    parseUri ("hdfs:///user/x/file".toList)
      ≠ Except.ok (Descriptor.hdfs ("user/x/file".toList)) := by
  decide

/-- C9 amended: resolving `"hdfs:///user/x/file"` yields the
distributed-fs path `"/user/x/file"` (leading slash included), and
resolving `"hdfs://"` (empty path) fails with the invalid-URI error. -/
theorem parseUri_hdfs_spec :
    parseUri ("hdfs:///user/x/file".toList)
      = Except.ok (Descriptor.hdfs ("/user/x/file".toList)) ∧
    parseUri ("hdfs://".toList) = Except.error UriError.malformed :=
  ⟨rfl, rfl⟩

/-! ## Positional reader (`S3OpenRead.read`) -/

/-- The positional cursor of the external key object backing
`S3OpenRead.read`: the object's content and the current position. -/
structure ReadState where
  content : List Nat
  pos : Nat
deriving DecidableEq

/-- The external object-store client's read (`boto` `Key.read(size)`), as
documented in the source's comment: `size = 0` reads the entire remainder
from the current position; a positive size reads that many bytes. -/
def botoKeyRead (st : ReadState) (size : Nat) : List Nat × ReadState :=
  if size = 0 then
    (st.content.drop st.pos, { st with pos := st.content.length })
  else
    ((st.content.drop st.pos).take size,
     { st with pos := min (st.pos + size) st.content.length })

/-- `S3OpenRead.read(size)`: `if not size or size < 0: size = 0`, then
delegate to the key's read.  `none` models `size=None` (the default). -/
def S3OpenRead.read (st : ReadState) (size : Option Int) : List Nat × ReadState :=
  let sz : Int :=
    match size with
    | none => 0
    | some z => if z ≤ 0 then 0 else z
  botoKeyRead st sz.toNat

/-- C10: a `size` of `None`, zero, or any negative value makes
`S3OpenRead.read` return the entire remainder of the object from the
current position (and leaves the cursor at the end) — in particular
`read(0)` is not an empty read. -/
theorem s3OpenRead_read_spec (st : ReadState) (size : Option Int)
    (h : size = none ∨ ∃ z : Int, z ≤ 0 ∧ size = some z) :
    (S3OpenRead.read st size).1 = st.content.drop st.pos ∧
    (S3OpenRead.read st size).2.pos = st.content.length := by
  rcases h with h | ⟨z, hz, h⟩
  · subst h
    simp [S3OpenRead.read, botoKeyRead]
  · subst h
    simp only [S3OpenRead.read, if_pos hz]
    simp [botoKeyRead]

/-- Witness for C10 at `size = 0` on a 3-byte object with the cursor at
position 1: the whole remainder (2 bytes) is returned. -/
theorem s3OpenRead_read_spec_witness :
    (S3OpenRead.read ⟨[5, 6, 7], 1⟩ (some 0)).1 = ([5, 6, 7] : List Nat).drop 1 ∧
    (S3OpenRead.read ⟨[5, 6, 7], 1⟩ (some 0)).2.pos = ([5, 6, 7] : List Nat).length :=
  s3OpenRead_read_spec ⟨[5, 6, 7], 1⟩ (some 0) (Or.inr ⟨0, by decide, rfl⟩)
